import Mathlib

/-!
Shallow embedding of the calendar platform of the min_renovasjon
Home Assistant integration.

The repository ships two variants of the same calendar entity:
- custom_components/min_renovasjon/calendar.py        (the "Main" variant):
  no exception handling, events built from naive local datetimes
  (pickup_date.replace(hour=0, ...), end = start + timedelta(days=1));
- custom_components/min_renovasjon_test/calendar.py   (the "Test" variant):
  try/except around fetch, per-entry try/except catching
  (ValueError, TypeError, IndexError), events built timezone-aware via
  as_utc(start_of_local_day(...)).

Modelling conventions:
- instants and naive local datetimes are minutes (Int); a day is 1440 minutes;
- a Python datetime is PyDT: naive (local-clock minutes) or aware (UTC minutes);
- the configured local timezone is a function from a naive local time to its
  UTC offset in minutes (so DST-style varying offsets are allowed);
- a raised Python exception is an Except.error carrying the exception kind;
  code that lets exceptions escape returns Except, code that catches them
  all returns plain values.
-/

namespace MinRenovasjon

/-- The configured local timezone of the Home Assistant instance:
offset in minutes to subtract from a naive local time to obtain UTC
(homeassistant.util.dt.as_utc on a naive datetime). -/
structure Tz where
  offset : Int → Int

/-- A Python datetime: either naive (local-clock minutes since epoch) or
timezone-aware (UTC minutes since epoch). -/
inductive PyDT
  | naive (t : Int)
  | aware (t : Int)
deriving DecidableEq

/-- The raw comparison value of a datetime: Python compares two naive or two
aware datetimes by their underlying value. -/
def dtVal : PyDT → Int
  | .naive t => t
  | .aware t => t

/-- homeassistant.util.dt.as_utc: an aware datetime is already a UTC instant;
a naive one is interpreted in the configured local timezone and converted. -/
def asUtc (tz : Tz) : PyDT → Int
  | .naive t => t - tz.offset t
  | .aware t => t

/-- The local calendar date (day number) of a naive local datetime:
Python datetime.date() / floor to the containing day. -/
def dateOf (t : Int) : Int := t.fdiv 1440

/-- The UTC instant of local midnight of local day d:
as_utc(start_of_local_day(...)) for a datetime on day d. -/
def localMidnightUTC (tz : Tz) (d : Int) : Int :=
  d * 1440 - tz.offset (d * 1440)

/-- homeassistant.components.calendar.CalendarEvent, fields in constructor
order used by the source (summary, start, end, description). -/
structure CalendarEvent where
  summary : String
  start : PyDT
  end_ : PyDT
  description : String
deriving DecidableEq

/-- The kind of Python exception raised while processing a calendar entry.
The Test variant's inner handler catches exactly ValueError, TypeError and
IndexError; anything else (e.g. AttributeError) only hits the outer handler. -/
inductive ExcKind
  | valueError
  | typeError
  | indexError
  | otherError
deriving DecidableEq

/-- True iff the Test variant's per-entry handler
(except (ValueError, TypeError, IndexError)) catches this exception. -/
def caughtInner : ExcKind → Bool
  | .valueError => true
  | .typeError => true
  | .indexError => true
  | .otherError => false

/-- A well-formed pickup entry: (fraction_id, fraction_name, _, pickup_date,
next_pickup_date). Dates are naive local datetimes; None is modelled by
Option.none (a datetime object is always truthy in Python, None is falsy). -/
structure EntryData where
  fractionId : Int
  fractionName : String
  unusedField : String
  pickupDate : Option Int
  nextPickupDate : Option Int
deriving DecidableEq

/-- One element of the upstream calendar list: a null entry (skipped by
both variants), a malformed entry whose processing raises an exception of
the given kind, or a well-formed tuple. -/
inductive Entry
  | null
  | bad (k : ExcKind)
  | ok (d : EntryData)
deriving DecidableEq

/-- Main variant event for one pickup date p:
event_start = pickup_date.replace(hour=0, minute=0, second=0, microsecond=0)
(a naive local midnight), event_end = event_start + timedelta(days=1). -/
def mkEventMain (name : String) (p : Int) : CalendarEvent :=
  { summary := name ++ " tømming"
    start := .naive (dateOf p * 1440)
    end_ := .naive (dateOf p * 1440 + 1440)
    description := "Tømming av " ++ name }

/-- Test variant event for one pickup date p:
event_start = as_utc(start_of_local_day(pickup_date)),
event_end = as_utc(start_of_local_day(pickup_date + timedelta(days=1))). -/
def mkEventTest (tz : Tz) (name : String) (p : Int) : CalendarEvent :=
  { summary := name ++ " tømming"
    start := .aware (localMidnightUTC tz (dateOf p))
    end_ := .aware (localMidnightUTC tz (dateOf (p + 1440)))
    description := "Tømming av " ++ name }

/-- Main variant, contribution of one date field of one entry:
if pickup_date and pickup_date.date() >= datetime.now().date(): append one
event, else none. today is the local calendar date at generation time. -/
def fieldEventsMain (today : Int) (name : String) : Option Int → List CalendarEvent
  | none => []
  | some p => if today ≤ dateOf p then [mkEventMain name p] else []

/-- Test variant, contribution of one date field of one entry. -/
def fieldEventsTest (tz : Tz) (today : Int) (name : String) :
    Option Int → List CalendarEvent
  | none => []
  | some p => if today ≤ dateOf p then [mkEventTest tz name p] else []

/-- Main variant, events appended for one well-formed entry: the pickup_date
check followed by the next_pickup_date check. -/
def entryEventsMain (today : Int) (d : EntryData) : List CalendarEvent :=
  fieldEventsMain today d.fractionName d.pickupDate ++
    fieldEventsMain today d.fractionName d.nextPickupDate

/-- Test variant, events appended for one well-formed entry. -/
def entryEventsTest (tz : Tz) (today : Int) (d : EntryData) : List CalendarEvent :=
  fieldEventsTest tz today d.fractionName d.pickupDate ++
    fieldEventsTest tz today d.fractionName d.nextPickupDate

/-- Ordering used by events.sort(key=lambda x: x.start). -/
def evLE (x y : CalendarEvent) : Prop := dtVal x.start ≤ dtVal y.start

instance : DecidableRel evLE := fun x y => Int.decLe (dtVal x.start) (dtVal y.start)

instance : IsTotal CalendarEvent evLE := ⟨fun x y => Int.le_total (dtVal x.start) (dtVal y.start)⟩

instance : IsTrans CalendarEvent evLE := ⟨fun _ _ _ h1 h2 => le_trans h1 h2⟩

/-- events.sort(key=lambda x: x.start): a stable sort by start. -/
def sortEvents (l : List CalendarEvent) : List CalendarEvent :=
  List.insertionSort evLE l

/-- Main variant, the loop body of _fetch_events over the calendar list:
null entries are skipped; a malformed entry raises and the exception
escapes (there is no per-entry handler in this variant). -/
def buildMain (today : Int) : List Entry → Except ExcKind (List CalendarEvent)
  | [] => .ok []
  | .null :: r => buildMain today r
  | .bad k :: _ => .error k
  | .ok d :: r => (buildMain today r).map (fun rest => entryEventsMain today d ++ rest)

/-- Main variant _fetch_events: an upstream failure escapes; otherwise the
built events are sorted by start and returned. -/
def fetchEventsMain (today : Int) (upstream : Except ExcKind (List Entry)) :
    Except ExcKind (List CalendarEvent) :=
  match upstream with
  | .error k => .error k
  | .ok l => (buildMain today l).map sortEvents

/-- Test variant loop body: null entries skipped; a malformed entry raising
ValueError/TypeError/IndexError is skipped by the inner handler; any other
exception escapes to the outer handler. -/
def buildTest (tz : Tz) (today : Int) : List Entry → Except ExcKind (List CalendarEvent)
  | [] => .ok []
  | .null :: r => buildTest tz today r
  | .bad k :: r => if caughtInner k then buildTest tz today r else .error k
  | .ok d :: r => (buildTest tz today r).map (fun rest => entryEventsTest tz today d ++ rest)

/-- Test variant _fetch_events: the whole body is wrapped in
try/except Exception, which returns [] on any escaping exception
(upstream failure or an uncaught per-entry exception). Total. -/
def fetchEventsTest (tz : Tz) (today : Int) (upstream : Except ExcKind (List Entry)) :
    List CalendarEvent :=
  match upstream with
  | .error _ => []
  | .ok l =>
    match buildTest tz today l with
    | .error _ => []
    | .ok evs => sortEvents evs

/-- The filter condition of async_get_events (identical in both variants):
start_date <= as_utc(event.start) <= end_date or
start_date <= as_utc(event.end) <= end_date or
(as_utc(event.start) <= start_date and end_date <= as_utc(event.end)). -/
def inRange (tz : Tz) (a b : Int) (ev : CalendarEvent) : Bool :=
  decide ((a ≤ asUtc tz ev.start ∧ asUtc tz ev.start ≤ b) ∨
    (a ≤ asUtc tz ev.end_ ∧ asUtc tz ev.end_ ≤ b) ∨
    (asUtc tz ev.start ≤ a ∧ b ≤ asUtc tz ev.end_))

/-- The list comprehension of async_get_events over the fetched events. -/
def rangeFilter (tz : Tz) (a b : Int) (evs : List CalendarEvent) : List CalendarEvent :=
  evs.filter (inRange tz a b)

/-- The mutable per-instance state of MinRenovasjonCalendarEntity:
_name, the config entry id (for unique_id) and the cached _events list. -/
structure CalState where
  name : String
  configEntryId : String
  events : List CalendarEvent
deriving DecidableEq

/-- Main variant async_get_events: normalizes the bounds with as_utc,
re-fetches (letting any exception escape to the host), stores the fresh
events in self._events and returns the range-filtered list. -/
def asyncGetEventsMain (tz : Tz) (today : Int) (s : CalState)
    (upstream : Except ExcKind (List Entry)) (a b : PyDT) :
    Except ExcKind (CalState × List CalendarEvent) :=
  match fetchEventsMain today upstream with
  | .error k => .error k
  | .ok evs => .ok ({ s with events := evs }, rangeFilter tz (asUtc tz a) (asUtc tz b) evs)

/-- Test variant async_get_events: same body inside try/except, but
fetchEventsTest is total and the filter cannot raise, so the handler is
never reached; always returns the new state and the filtered list. -/
def asyncGetEventsTest (tz : Tz) (today : Int) (s : CalState)
    (upstream : Except ExcKind (List Entry)) (a b : PyDT) :
    CalState × List CalendarEvent :=
  let evs := fetchEventsTest tz today upstream
  ({ s with events := evs }, rangeFilter tz (asUtc tz a) (asUtc tz b) evs)

/-- Main variant async_update: self._events = await self._fetch_events(),
with any exception escaping (and the assignment not happening). -/
def asyncUpdateMain (today : Int) (s : CalState)
    (upstream : Except ExcKind (List Entry)) : Except ExcKind CalState :=
  match fetchEventsMain today upstream with
  | .error k => .error k
  | .ok evs => .ok { s with events := evs }

/-- Test variant async_update: try: self._events = await self._fetch_events()
except: self._events = []. fetchEventsTest is total, so this is just the
assignment of the fresh fetch. -/
def asyncUpdateTest (tz : Tz) (today : Int) (s : CalState)
    (upstream : Except ExcKind (List Entry)) : CalState :=
  { s with events := fetchEventsTest tz today upstream }

/-- Python min(future_events, key=lambda x: x.start): the first element
attaining the minimal start (later elements replace only on strictly
smaller key). f is the running minimum. -/
def minByStart (f : CalendarEvent) : List CalendarEvent → CalendarEvent
  | [] => f
  | g :: r => if dtVal g.start < dtVal f.start then minByStart g r else minByStart f r

/-- _get_next_event (both variants): filter the cached events to those with
start >= now and return the minimum by start, or None when none qualify.
now is the comparison value of datetime.now() (naive, Main) resp.
as_utc(datetime.now()) (aware, Test); events of each variant are homogeneous
with it, so the comparison is on dtVal. Pure: reads self._events only. -/
def getNextEvent (events : List CalendarEvent) (now : Int) : Option CalendarEvent :=
  match events.filter (fun e => decide (now ≤ dtVal e.start)) with
  | [] => none
  | f :: r => some (minByStart f r)

/-- An event spans exactly one calendar day of the local timezone tz:
its start instant is local midnight of some day d and its end instant is
local midnight of day d + 1, both expressed in UTC. -/
def spansOneLocalDay (tz : Tz) (ev : CalendarEvent) : Prop :=
  ∃ d : Int, asUtc tz ev.start = localMidnightUTC tz d ∧
    asUtc tz ev.end_ = localMidnightUTC tz (d + 1)

/-- Fixture: a timezone permanently at UTC. -/
def tz0 : Tz := ⟨fun _ => 0⟩

/-- Fixture: a well-formed pickup entry, pickup date on local day 2. -/
def entry1 : EntryData := ⟨1, "Plastic", "", some 2880, none⟩

/-- Fixture: the event the Test variant builds from entry1's pickup date. -/
def ev1 : CalendarEvent := mkEventTest tz0 "Plastic" 2880

/-- Fixture: an initial entity state with an arbitrary stale cache. -/
def state0 : CalState :=
  ⟨"Min Renovasjon", "entryA", [mkEventTest tz0 "Old" 0]⟩

/-! ### Helper lemmas -/

theorem dateOf_eq_ediv (t : Int) : dateOf t = t / 1440 :=
  Int.fdiv_eq_ediv t (by norm_num)

theorem dateOf_add_day (t : Int) : dateOf (t + 1440) = dateOf t + 1 := by
  rw [dateOf_eq_ediv, dateOf_eq_ediv]
  omega

theorem mem_sortEvents {ev : CalendarEvent} {l : List CalendarEvent} :
    ev ∈ sortEvents l ↔ ev ∈ l :=
  (List.perm_insertionSort evLE l).mem_iff

theorem sorted_sortEvents (l : List CalendarEvent) : List.Sorted evLE (sortEvents l) :=
  List.sorted_insertionSort evLE l

theorem spans_mkEventTest (tz : Tz) (name : String) (p : Int) :
    spansOneLocalDay tz (mkEventTest tz name p) := by
  refine ⟨dateOf p, rfl, ?_⟩
  show localMidnightUTC tz (dateOf (p + 1440)) = localMidnightUTC tz (dateOf p + 1)
  rw [dateOf_add_day]

theorem spans_mkEventMain (tz : Tz) (name : String) (p : Int) :
    spansOneLocalDay tz (mkEventMain name p) := by
  refine ⟨dateOf p, rfl, ?_⟩
  show dateOf p * 1440 + 1440 - tz.offset (dateOf p * 1440 + 1440) = localMidnightUTC tz (dateOf p + 1)
  rw [localMidnightUTC]
  have h : dateOf p * 1440 + 1440 = (dateOf p + 1) * 1440 := by ring
  rw [h]

theorem mem_fieldEventsTest {tz : Tz} {today : Int} {name : String} {po : Option Int}
    {ev : CalendarEvent} (h : ev ∈ fieldEventsTest tz today name po) :
    ∃ p, po = some p ∧ today ≤ dateOf p ∧ ev = mkEventTest tz name p := by
  match po with
  | none => simp [fieldEventsTest] at h
  | some p =>
    simp only [fieldEventsTest] at h
    split at h
    · simp only [List.mem_singleton] at h
      exact ⟨p, rfl, by assumption, h⟩
    · simp at h

theorem mem_fieldEventsMain {today : Int} {name : String} {po : Option Int}
    {ev : CalendarEvent} (h : ev ∈ fieldEventsMain today name po) :
    ∃ p, po = some p ∧ today ≤ dateOf p ∧ ev = mkEventMain name p := by
  match po with
  | none => simp [fieldEventsMain] at h
  | some p =>
    simp only [fieldEventsMain] at h
    split at h
    · simp only [List.mem_singleton] at h
      exact ⟨p, rfl, by assumption, h⟩
    · simp at h

theorem mem_entryEventsTest {tz : Tz} {today : Int} {d : EntryData}
    {ev : CalendarEvent} (h : ev ∈ entryEventsTest tz today d) :
    ∃ p, today ≤ dateOf p ∧ ev = mkEventTest tz d.fractionName p := by
  rcases List.mem_append.mp h with h2 | h2 <;>
    obtain ⟨p, _, hp, he⟩ := mem_fieldEventsTest h2 <;> exact ⟨p, hp, he⟩

theorem mem_entryEventsMain {today : Int} {d : EntryData}
    {ev : CalendarEvent} (h : ev ∈ entryEventsMain today d) :
    ∃ p, today ≤ dateOf p ∧ ev = mkEventMain d.fractionName p := by
  rcases List.mem_append.mp h with h2 | h2 <;>
    obtain ⟨p, _, hp, he⟩ := mem_fieldEventsMain h2 <;> exact ⟨p, hp, he⟩

theorem mem_buildTest {tz : Tz} {today : Int} {l : List Entry}
    {evs : List CalendarEvent} (h : buildTest tz today l = Except.ok evs)
    {ev : CalendarEvent} (hm : ev ∈ evs) :
    ∃ name p, today ≤ dateOf p ∧ ev = mkEventTest tz name p := by
  induction l generalizing evs with
  | nil =>
    simp only [buildTest, Except.ok.injEq] at h
    subst h; simp at hm
  | cons e r ih =>
    match e with
    | .null => exact ih h hm
    | .bad k =>
      simp only [buildTest] at h
      split at h
      · exact ih h hm
      · exact absurd h (by simp)
    | .ok d =>
      simp only [buildTest] at h
      cases hb : buildTest tz today r with
      | error k => rw [hb] at h; simp [Except.map] at h
      | ok rest =>
        rw [hb] at h
        simp only [Except.map, Except.ok.injEq] at h
        subst h
        rcases List.mem_append.mp hm with h2 | h2
        · obtain ⟨p, hp, he⟩ := mem_entryEventsTest h2
          exact ⟨d.fractionName, p, hp, he⟩
        · exact ih hb h2

theorem mem_buildMain {today : Int} {l : List Entry}
    {evs : List CalendarEvent} (h : buildMain today l = Except.ok evs)
    {ev : CalendarEvent} (hm : ev ∈ evs) :
    ∃ name p, today ≤ dateOf p ∧ ev = mkEventMain name p := by
  induction l generalizing evs with
  | nil =>
    simp only [buildMain, Except.ok.injEq] at h
    subst h; simp at hm
  | cons e r ih =>
    match e with
    | .null => exact ih h hm
    | .bad k => exact absurd h (by simp [buildMain])
    | .ok d =>
      simp only [buildMain] at h
      cases hb : buildMain today r with
      | error k => rw [hb] at h; simp [Except.map] at h
      | ok rest =>
        rw [hb] at h
        simp only [Except.map, Except.ok.injEq] at h
        subst h
        rcases List.mem_append.mp hm with h2 | h2
        · obtain ⟨p, hp, he⟩ := mem_entryEventsMain h2
          exact ⟨d.fractionName, p, hp, he⟩
        · exact ih hb h2

/-! ### Claim theorems -/

/-- C1: the range query (both variants share this filter) returns an event
iff it is among the fetched events and satisfies the three-disjunct
condition of the source, and — for a well-formed event (start ≤ end) and a
well-formed range (start ≤ end) — that condition holds iff the event
overlaps the requested range, i.e. they share some instant, containment in
either direction included. -/
theorem c1_rangeFilter_overlap (tz : Tz) (a b : Int) (evs : List CalendarEvent)
    (ev : CalendarEvent) (hab : a ≤ b) (hse : asUtc tz ev.start ≤ asUtc tz ev.end_) :
    (ev ∈ rangeFilter tz a b evs ↔
      ev ∈ evs ∧
        ((a ≤ asUtc tz ev.start ∧ asUtc tz ev.start ≤ b) ∨
         (a ≤ asUtc tz ev.end_ ∧ asUtc tz ev.end_ ≤ b) ∨
         (asUtc tz ev.start ≤ a ∧ b ≤ asUtc tz ev.end_))) ∧
    (ev ∈ rangeFilter tz a b evs ↔
      ev ∈ evs ∧
        ∃ t : Int, asUtc tz ev.start ≤ t ∧ t ≤ asUtc tz ev.end_ ∧ a ≤ t ∧ t ≤ b) := by
  have hdisj : ev ∈ rangeFilter tz a b evs ↔
      ev ∈ evs ∧
        ((a ≤ asUtc tz ev.start ∧ asUtc tz ev.start ≤ b) ∨
         (a ≤ asUtc tz ev.end_ ∧ asUtc tz ev.end_ ≤ b) ∨
         (asUtc tz ev.start ≤ a ∧ b ≤ asUtc tz ev.end_)) := by
    simp [rangeFilter, List.mem_filter, inRange]
  refine ⟨hdisj, hdisj.trans (and_congr_right fun _ => ⟨?_, ?_⟩)⟩
  · rintro (⟨h1, h2⟩ | ⟨h1, h2⟩ | ⟨h1, h2⟩)
    · exact ⟨asUtc tz ev.start, le_refl _, hse, h1, h2⟩
    · exact ⟨asUtc tz ev.end_, hse, le_refl _, h1, h2⟩
    · exact ⟨a, h1, le_trans hab h2, le_refl _, hab⟩
  · rintro ⟨t, h1, h2, h3, h4⟩
    omega

/-- Witness for C1 at a concrete timezone, range and event. -/
theorem c1_witness :
    ev1 ∈ rangeFilter tz0 0 999999 [ev1] ↔
      ev1 ∈ [ev1] ∧
        ∃ t : Int, asUtc tz0 ev1.start ≤ t ∧ t ≤ asUtc tz0 ev1.end_ ∧
          0 ≤ t ∧ t ≤ 999999 :=
  (c1_rangeFilter_overlap tz0 0 999999 [ev1] ev1 (by decide) (by decide)).2

/-- C2: every event produced by the event builder (either variant) spans
exactly one local calendar day: its start is local midnight of some day d
and its end local midnight of day d + 1, both as UTC-normalized instants
(the Main variant stores naive local datetimes; their as_utc images are
exactly these instants). -/
theorem c2_builder_spans_one_local_day :
    (∀ (tz : Tz) (today : Int) (up : Except ExcKind (List Entry)) (ev : CalendarEvent),
        ev ∈ fetchEventsTest tz today up → spansOneLocalDay tz ev) ∧
    (∀ (tz : Tz) (today : Int) (up : Except ExcKind (List Entry))
        (evs : List CalendarEvent) (ev : CalendarEvent),
        fetchEventsMain today up = Except.ok evs → ev ∈ evs → spansOneLocalDay tz ev) := by
  constructor
  · intro tz today up ev hm
    match up with
    | .error k => simp [fetchEventsTest] at hm
    | .ok l =>
      simp only [fetchEventsTest] at hm
      cases hb : buildTest tz today l with
      | error k => rw [hb] at hm; simp at hm
      | ok evs0 =>
        rw [hb] at hm
        obtain ⟨name, p, _, he⟩ := mem_buildTest hb (mem_sortEvents.mp hm)
        exact he ▸ spans_mkEventTest tz name p
  · intro tz today up evs ev h hm
    match up with
    | .error k => exact absurd h (by simp [fetchEventsMain])
    | .ok l =>
      simp only [fetchEventsMain] at h
      cases hb : buildMain today l with
      | error k => rw [hb] at h; simp [Except.map] at h
      | ok evs0 =>
        rw [hb] at h
        simp only [Except.map, Except.ok.injEq] at h
        subst h
        obtain ⟨name, p, _, he⟩ := mem_buildMain hb (mem_sortEvents.mp hm)
        exact he ▸ spans_mkEventMain tz name p

/-- Witness for C2 at a concrete fetched event of the Test variant. -/
theorem c2_witness : spansOneLocalDay tz0 (mkEventTest tz0 "Plastic" 2880) :=
  c2_builder_spans_one_local_day.1 tz0 2 (Except.ok [Entry.ok entry1])
    (mkEventTest tz0 "Plastic" 2880) (by decide)

/-- C3: for a present pickup date on or after today's local date, the
builder generates exactly one event for that field (in each variant); for
a date strictly before today, or an absent date, it generates none; and
the per-entry output is exactly the pickup-date contribution followed by
the next-pickup-date contribution. -/
theorem c3_field_event_iff_not_past (tz : Tz) (today : Int) (name : String)
    (p : Int) (d : EntryData) :
    (today ≤ dateOf p →
      fieldEventsMain today name (some p) = [mkEventMain name p] ∧
      fieldEventsTest tz today name (some p) = [mkEventTest tz name p]) ∧
    (dateOf p < today →
      fieldEventsMain today name (some p) = [] ∧
      fieldEventsTest tz today name (some p) = []) ∧
    fieldEventsMain today name none = [] ∧
    fieldEventsTest tz today name none = [] ∧
    entryEventsMain today d =
      fieldEventsMain today d.fractionName d.pickupDate ++
        fieldEventsMain today d.fractionName d.nextPickupDate ∧
    entryEventsTest tz today d =
      fieldEventsTest tz today d.fractionName d.pickupDate ++
        fieldEventsTest tz today d.fractionName d.nextPickupDate := by
  refine ⟨fun h => ?_, fun h => ?_, rfl, rfl, rfl, rfl⟩
  · simp [fieldEventsMain, fieldEventsTest, if_pos h]
  · simp [fieldEventsMain, fieldEventsTest, if_neg (not_le.mpr h)]

/-- Witness for C3 at a concrete date on or after today. -/
theorem c3_witness :
    fieldEventsMain 2 "Plastic" (some 2880) = [mkEventMain "Plastic" 2880] ∧
    fieldEventsTest tz0 2 "Plastic" (some 2880) = [mkEventTest tz0 "Plastic" 2880] :=
  (c3_field_event_iff_not_past tz0 2 "Plastic" 2880 entry1).1 (by decide)

/-- C4 counterexample: the Main variant has no exception handling at all —
an upstream fetch failure inside async_get_events escapes to the host
instead of being converted to an empty list. -/
theorem c4_counterexample_main_propagates :
    asyncGetEventsMain tz0 0 state0 (Except.error ExcKind.otherError)
        (PyDT.aware 0) (PyDT.aware 1440) =
      Except.error ExcKind.otherError := rfl

/-- C4 (amended): in the Test variant, an upstream failure is caught and
yields an empty fetch result and an empty range-query result; a malformed
entry raising ValueError/TypeError/IndexError is skipped with the remaining
entries still processed; a malformed entry raising any other exception
aborts the batch via the outer handler, yielding an empty list. In the
Main variant any exception escaping the fetch propagates to the host. -/
theorem c4_amended_exception_handling :
    (∀ (tz : Tz) (today : Int) (k : ExcKind),
        fetchEventsTest tz today (Except.error k) = []) ∧
    (∀ (tz : Tz) (today : Int) (s : CalState) (k : ExcKind) (a b : PyDT),
        asyncGetEventsTest tz today s (Except.error k) a b =
          ({ s with events := [] }, [])) ∧
    (∀ (tz : Tz) (today : Int) (pre post : List Entry) (k : ExcKind),
        caughtInner k = true →
        buildTest tz today (pre ++ Entry.bad k :: post) =
          buildTest tz today (pre ++ post)) ∧
    (∀ (tz : Tz) (today : Int) (l : List Entry) (k : ExcKind),
        caughtInner k = false → Entry.bad k ∈ l →
        fetchEventsTest tz today (Except.ok l) = []) ∧
    (∀ (tz : Tz) (today : Int) (s : CalState)
        (up : Except ExcKind (List Entry)) (a b : PyDT) (k : ExcKind),
        fetchEventsMain today up = Except.error k →
        asyncGetEventsMain tz today s up a b = Except.error k) := by
  refine ⟨fun tz today k => rfl, fun tz today s k a b => rfl, ?_, ?_, ?_⟩
  · intro tz today pre post k hk
    induction pre with
    | nil => simp [buildTest, hk]
    | cons e r ih =>
      match e with
      | .null => simpa [buildTest] using ih
      | .bad k2 =>
        simp only [List.cons_append, buildTest, List.append_eq]
        rw [ih]
      | .ok d =>
        simp only [List.cons_append, buildTest, List.append_eq]
        rw [ih]
  · intro tz today l k hk hm
    have herr : ∃ k2, buildTest tz today l = Except.error k2 := by
      induction l with
      | nil => simp at hm
      | cons e r ih =>
        match e with
        | .null =>
          simp only [List.mem_cons, reduceCtorEq, false_or] at hm
          simpa [buildTest] using ih hm
        | .bad k2 =>
          by_cases hc : caughtInner k2 = true
          · have hne : Entry.bad k ≠ Entry.bad k2 := by
              intro hcontra
              rw [Entry.bad.injEq] at hcontra
              rw [hcontra, hc] at hk
              exact Bool.noConfusion hk
            simp only [List.mem_cons] at hm
            rcases hm with hm | hm
            · exact absurd hm hne
            · simpa [buildTest, hc] using ih hm
          · exact ⟨k2, by simp [buildTest, hc]⟩
        | .ok d =>
          simp only [List.mem_cons, reduceCtorEq, false_or] at hm
          obtain ⟨k2, hk2⟩ := ih hm
          exact ⟨k2, by simp [buildTest, hk2, Except.map]⟩
    obtain ⟨k2, hk2⟩ := herr
    simp [fetchEventsTest, hk2]
  · intro tz today s up a b k h
    simp [asyncGetEventsMain, h]

/-- Witness for C4's amended claim at concrete entries and failures. -/
theorem c4_witness :
    buildTest tz0 0 ([] ++ Entry.bad ExcKind.valueError :: [Entry.ok entry1]) =
      buildTest tz0 0 ([] ++ [Entry.ok entry1]) ∧
    fetchEventsTest tz0 0 (Except.ok [Entry.bad ExcKind.otherError]) = [] ∧
    asyncGetEventsMain tz0 0 state0 (Except.error ExcKind.typeError)
        (PyDT.aware 0) (PyDT.aware 1440) = Except.error ExcKind.typeError :=
  ⟨c4_amended_exception_handling.2.2.1 tz0 0 [] [Entry.ok entry1]
      ExcKind.valueError (by decide),
   c4_amended_exception_handling.2.2.2.1 tz0 0 [Entry.bad ExcKind.otherError]
      ExcKind.otherError (by decide) (by decide),
   c4_amended_exception_handling.2.2.2.2 tz0 0 state0
      (Except.error ExcKind.typeError) (PyDT.aware 0) (PyDT.aware 1440)
      ExcKind.typeError rfl⟩

/-- C5: the next-event selector returns None exactly when no cached event
has start ≥ now, and otherwise returns an event of the cache with start ≥
now whose start is minimal among all qualifying events; it is a pure
function of the cached list and now. -/
theorem c5_getNextEvent_spec (events : List CalendarEvent) (now : Int) :
    (getNextEvent events now = none ↔ ∀ e ∈ events, dtVal e.start < now) ∧
    (∀ ev : CalendarEvent, getNextEvent events now = some ev →
      ev ∈ events ∧ now ≤ dtVal ev.start ∧
        ∀ f ∈ events, now ≤ dtVal f.start → dtVal ev.start ≤ dtVal f.start) := by
  have hmin_mem : ∀ (r : List CalendarEvent) (f : CalendarEvent),
      minByStart f r = f ∨ minByStart f r ∈ r := by
    intro r
    induction r with
    | nil => exact fun f => Or.inl rfl
    | cons g r2 ih =>
      intro f
      simp only [minByStart]
      split
      · rcases ih g with h | h
        · right; rw [h]; exact List.mem_cons_self g r2
        · exact Or.inr (List.mem_cons_of_mem g h)
      · rcases ih f with h | h
        · exact Or.inl h
        · exact Or.inr (List.mem_cons_of_mem g h)
  have hmin_le : ∀ (r : List CalendarEvent) (f : CalendarEvent),
      dtVal (minByStart f r).start ≤ dtVal f.start ∧
        ∀ g ∈ r, dtVal (minByStart f r).start ≤ dtVal g.start := by
    intro r
    induction r with
    | nil => exact fun f => ⟨le_refl _, by simp⟩
    | cons g r2 ih =>
      intro f
      simp only [minByStart]
      split
      · rename_i hlt
        refine ⟨le_trans (ih g).1 (le_of_lt hlt), ?_⟩
        intro g2 hg2
        rcases List.mem_cons.mp hg2 with h | h
        · exact h ▸ (ih g).1
        · exact (ih g).2 g2 h
      · rename_i hnlt
        refine ⟨(ih f).1, ?_⟩
        intro g2 hg2
        rcases List.mem_cons.mp hg2 with h | h
        · exact h ▸ le_trans (ih f).1 (le_of_not_lt hnlt)
        · exact (ih f).2 g2 h
  constructor
  · constructor
    · intro h e he
      by_contra hcontra
      push_neg at hcontra
      have hmem : e ∈ events.filter (fun e => decide (now ≤ dtVal e.start)) :=
        List.mem_filter.mpr ⟨he, by simpa using hcontra⟩
      cases hf : events.filter (fun e => decide (now ≤ dtVal e.start)) with
      | nil => rw [hf] at hmem; simp at hmem
      | cons f r =>
        simp only [getNextEvent, hf] at h
        exact absurd h (by simp)
    · intro h
      have hf : events.filter (fun e => decide (now ≤ dtVal e.start)) = [] :=
        List.filter_eq_nil_iff.mpr fun e he => by simpa using h e he
      simp [getNextEvent, hf]
  · intro ev h
    cases hf : events.filter (fun e => decide (now ≤ dtVal e.start)) with
    | nil => simp [getNextEvent, hf] at h
    | cons f r =>
      simp only [getNextEvent, hf, Option.some.injEq] at h
      subst h
      have hmem : minByStart f r ∈ f :: r := by
        rcases hmin_mem r f with h | h
        · rw [h]; exact List.mem_cons_self f r
        · exact List.mem_cons_of_mem f h
      have hfilter : minByStart f r ∈
          events.filter (fun e => decide (now ≤ dtVal e.start)) := hf ▸ hmem
      obtain ⟨hin, hge⟩ := List.mem_filter.mp hfilter
      refine ⟨hin, by simpa using hge, ?_⟩
      intro g hg hgge
      have hgf : g ∈ f :: r := by
        rw [← hf]
        exact List.mem_filter.mpr ⟨hg, by simpa using hgge⟩
      rcases List.mem_cons.mp hgf with h2 | h2
      · exact h2 ▸ (hmin_le r f).1
      · exact (hmin_le r f).2 g h2

/-- Witness for C5 at a concrete cache and instant. -/
theorem c5_witness :
    ev1 ∈ [ev1] ∧ 0 ≤ dtVal ev1.start ∧
      ∀ f ∈ [ev1], 0 ≤ dtVal f.start → dtVal ev1.start ≤ dtVal f.start :=
  (c5_getNextEvent_spec [ev1] 0).2 ev1 (by decide)

/-- C6: every event list handed back to the caller — by the builder of
either variant and by the range-filtered query of either variant — is
sorted non-decreasing by start. -/
theorem c6_events_sorted :
    (∀ (tz : Tz) (today : Int) (up : Except ExcKind (List Entry)),
        List.Sorted evLE (fetchEventsTest tz today up)) ∧
    (∀ (today : Int) (up : Except ExcKind (List Entry)) (evs : List CalendarEvent),
        fetchEventsMain today up = Except.ok evs → List.Sorted evLE evs) ∧
    (∀ (tz : Tz) (today : Int) (s : CalState) (up : Except ExcKind (List Entry))
        (a b : PyDT) (s2 : CalState) (res : List CalendarEvent),
        asyncGetEventsTest tz today s up a b = (s2, res) → List.Sorted evLE res) ∧
    (∀ (tz : Tz) (today : Int) (s : CalState) (up : Except ExcKind (List Entry))
        (a b : PyDT) (s2 : CalState) (res : List CalendarEvent),
        asyncGetEventsMain tz today s up a b = Except.ok (s2, res) →
        List.Sorted evLE res) := by
  have hfetchTest : ∀ (tz : Tz) (today : Int) (up : Except ExcKind (List Entry)),
      List.Sorted evLE (fetchEventsTest tz today up) := by
    intro tz today up
    match up with
    | .error k => exact List.sorted_nil
    | .ok l =>
      simp only [fetchEventsTest]
      cases buildTest tz today l with
      | error k => exact List.sorted_nil
      | ok evs0 => exact sorted_sortEvents evs0
  have hfetchMain : ∀ (today : Int) (up : Except ExcKind (List Entry))
      (evs : List CalendarEvent),
      fetchEventsMain today up = Except.ok evs → List.Sorted evLE evs := by
    intro today up evs h
    match up with
    | .error k => exact absurd h (by simp [fetchEventsMain])
    | .ok l =>
      simp only [fetchEventsMain] at h
      cases hb : buildMain today l with
      | error k => rw [hb] at h; simp [Except.map] at h
      | ok evs0 =>
        rw [hb] at h
        simp only [Except.map, Except.ok.injEq] at h
        exact h ▸ sorted_sortEvents evs0
  refine ⟨hfetchTest, hfetchMain, ?_, ?_⟩
  · intro tz today s up a b s2 res h
    simp only [asyncGetEventsTest, Prod.mk.injEq] at h
    exact h.2 ▸ List.Pairwise.sublist (List.filter_sublist _) (hfetchTest tz today up)
  · intro tz today s up a b s2 res h
    simp only [asyncGetEventsMain] at h
    cases hb : fetchEventsMain today up with
    | error k => rw [hb] at h; exact absurd h (by simp)
    | ok evs =>
      rw [hb] at h
      simp only [Except.ok.injEq, Prod.mk.injEq] at h
      exact h.2 ▸ List.Pairwise.sublist (List.filter_sublist _) (hfetchMain today up evs hb)

/-- Witness for C6 at a concrete Main-variant range query. -/
theorem c6_witness :
    List.Sorted evLE [mkEventMain "Plastic" 2880] :=
  c6_events_sorted.2.2.2 tz0 0 state0 (Except.ok [Entry.ok entry1])
    (PyDT.aware 0) (PyDT.aware 999999)
    { state0 with events := [mkEventMain "Plastic" 2880] }
    [mkEventMain "Plastic" 2880] rfl

/-- C7: null entries in the upstream pickup list are skipped without
effect: the builder's output (either variant) on a list equals its output
on the same list with the null entries removed. -/
theorem c7_null_entries_ignored (tz : Tz) (today : Int) (l : List Entry) :
    fetchEventsTest tz today
        (Except.ok (l.filter (fun e => decide (e ≠ Entry.null)))) =
      fetchEventsTest tz today (Except.ok l) ∧
    fetchEventsMain today
        (Except.ok (l.filter (fun e => decide (e ≠ Entry.null)))) =
      fetchEventsMain today (Except.ok l) := by
  have hbt : buildTest tz today (l.filter (fun e => decide (e ≠ Entry.null))) =
      buildTest tz today l := by
    induction l with
    | nil => rfl
    | cons e r ih =>
      match e with
      | .null =>
        rw [List.filter_cons_of_neg (by simp)]
        simp only [buildTest]
        exact ih
      | .bad k =>
        rw [List.filter_cons_of_pos (by simp)]
        simp only [buildTest]
        rw [ih]
      | .ok d =>
        rw [List.filter_cons_of_pos (by simp)]
        simp only [buildTest]
        rw [ih]
  have hbm : buildMain today (l.filter (fun e => decide (e ≠ Entry.null))) =
      buildMain today l := by
    clear hbt
    induction l with
    | nil => rfl
    | cons e r ih =>
      match e with
      | .null =>
        rw [List.filter_cons_of_neg (by simp)]
        simp only [buildMain]
        exact ih
      | .bad k =>
        rw [List.filter_cons_of_pos (by simp)]
        rfl
      | .ok d =>
        rw [List.filter_cons_of_pos (by simp)]
        simp only [buildMain]
        rw [ih]
  exact ⟨by simp only [fetchEventsTest, hbt], by simp only [fetchEventsMain, hbm]⟩

/-- C8: the update operation wholly replaces the cached event list with
the freshly built events and modifies no other instance field: Main
variant on a successful fetch, Test variant unconditionally. -/
theorem c8_update_replaces_cache :
    (∀ (today : Int) (s : CalState) (up : Except ExcKind (List Entry))
        (evs : List CalendarEvent),
        fetchEventsMain today up = Except.ok evs →
        asyncUpdateMain today s up =
          Except.ok { name := s.name, configEntryId := s.configEntryId,
                      events := evs }) ∧
    (∀ (tz : Tz) (today : Int) (s : CalState) (up : Except ExcKind (List Entry)),
        asyncUpdateTest tz today s up =
          { name := s.name, configEntryId := s.configEntryId,
            events := fetchEventsTest tz today up }) := by
  constructor
  · intro today s up evs h
    simp [asyncUpdateMain, h]
  · intro tz today s up
    rfl

/-- Witness for C8 at a concrete successful fetch. -/
theorem c8_witness :
    asyncUpdateMain 0 state0 (Except.ok [Entry.ok entry1]) =
      Except.ok { name := state0.name, configEntryId := state0.configEntryId,
                  events := [mkEventMain "Plastic" 2880] } :=
  c8_update_replaces_cache.1 0 state0 (Except.ok [Entry.ok entry1])
    [mkEventMain "Plastic" 2880] rfl

/-- C9: the range query is not a pure read: it recomputes the events from
the upstream fetch, replaces the cached list with them regardless of its
prior contents (only the events field of the state changes), and filters
over that fresh list. -/
theorem c9_get_events_refetches :
    (∀ (tz : Tz) (today : Int) (s : CalState) (up : Except ExcKind (List Entry))
        (a b : PyDT) (evs : List CalendarEvent),
        fetchEventsMain today up = Except.ok evs →
        asyncGetEventsMain tz today s up a b =
          Except.ok ({ name := s.name, configEntryId := s.configEntryId,
                       events := evs },
            rangeFilter tz (asUtc tz a) (asUtc tz b) evs)) ∧
    (∀ (tz : Tz) (today : Int) (s : CalState) (up : Except ExcKind (List Entry))
        (a b : PyDT),
        asyncGetEventsTest tz today s up a b =
          ({ name := s.name, configEntryId := s.configEntryId,
             events := fetchEventsTest tz today up },
            rangeFilter tz (asUtc tz a) (asUtc tz b)
              (fetchEventsTest tz today up))) := by
  constructor
  · intro tz today s up a b evs h
    simp [asyncGetEventsMain, h]
  · intro tz today s up a b
    rfl

/-- Witness for C9 at a concrete successful fetch. -/
theorem c9_witness :
    asyncGetEventsMain tz0 0 state0 (Except.ok [Entry.ok entry1])
        (PyDT.aware 0) (PyDT.aware 999999) =
      Except.ok ({ name := state0.name, configEntryId := state0.configEntryId,
                   events := [mkEventMain "Plastic" 2880] },
        rangeFilter tz0 (asUtc tz0 (PyDT.aware 0)) (asUtc tz0 (PyDT.aware 999999))
          [mkEventMain "Plastic" 2880]) :=
  c9_get_events_refetches.1 tz0 0 state0 (Except.ok [Entry.ok entry1])
    (PyDT.aware 0) (PyDT.aware 999999) [mkEventMain "Plastic" 2880] rfl

/-- C10: an entry whose pickup date and next pickup date are equal (and
not past) yields two identical events in both variants: the builder never
deduplicates. -/
theorem c10_duplicate_dates_two_events (tz : Tz) (today : Int) (fid : Int)
    (name unused : String) (p : Int) (h : today ≤ dateOf p) :
    fetchEventsTest tz today
        (Except.ok [Entry.ok ⟨fid, name, unused, some p, some p⟩]) =
      [mkEventTest tz name p, mkEventTest tz name p] ∧
    fetchEventsMain today
        (Except.ok [Entry.ok ⟨fid, name, unused, some p, some p⟩]) =
      Except.ok [mkEventMain name p, mkEventMain name p] := by
  have hsortT : sortEvents [mkEventTest tz name p, mkEventTest tz name p] =
      [mkEventTest tz name p, mkEventTest tz name p] := by
    simp only [sortEvents, List.insertionSort, List.orderedInsert]
    split <;> rfl
  have hsortM : sortEvents [mkEventMain name p, mkEventMain name p] =
      [mkEventMain name p, mkEventMain name p] := by
    simp only [sortEvents, List.insertionSort, List.orderedInsert]
    split <;> rfl
  constructor
  · simp only [fetchEventsTest, buildTest, entryEventsTest, fieldEventsTest,
      Except.map, if_pos h, List.append_nil, List.singleton_append]
    exact hsortT
  · simp only [fetchEventsMain, buildMain, entryEventsMain, fieldEventsMain,
      Except.map, if_pos h, List.append_nil, List.singleton_append]
    rw [hsortM]

/-- Witness for C10 at a concrete entry with equal dates. -/
theorem c10_witness :
    fetchEventsTest tz0 2
        (Except.ok [Entry.ok ⟨7, "Paper", "", some 2880, some 2880⟩]) =
      [mkEventTest tz0 "Paper" 2880, mkEventTest tz0 "Paper" 2880] ∧
    fetchEventsMain 2
        (Except.ok [Entry.ok ⟨7, "Paper", "", some 2880, some 2880⟩]) =
      Except.ok [mkEventMain "Paper" 2880, mkEventMain "Paper" 2880] :=
  c10_duplicate_dates_two_events tz0 2 7 "Paper" "" 2880 (by decide)

end MinRenovasjon
